import Mathlib

/-!
Verification of the crypto-service core (marcioazam/microservices-base).

This file shallowly embeds the parts of the C++ crypto service that the
checked claims are about:

* `src/crypto/engine/aes_engine.cpp` — AES-GCM encrypt/decrypt and
  PKCS#7 padding;
* `include/crypto/common/input_validation.h` — size validators and
  `makeSafeError`;
* `src/crypto/keys/key_types.cpp` — `KeyId::parse` / `toString`;
* `src/crypto/keys/key_service.cpp` — `rotateKey`, `deprecateKey`,
  `getKeyMaterial` over the in-memory key store
  (`src/crypto/keys/key_store.cpp`);
* `src/crypto/services/file_encryption_service.cpp` — the on-disk file
  envelope written by `encryptStream`;
* `src/crypto/metrics/tracing.cpp` — `TraceContext::parse`.

Bytes are modelled as `List Nat`, machine integers as `Nat` with explicit
`% 2 ^ w` where overflow matters.  The OpenSSL EVP AES-GCM primitive is
external to the repository; it is modelled as counter-mode over an
abstract block cipher together with an authentication tag that — like
GHASH with a nonzero hash key — changes whenever a single byte of the
authenticated data changes.  Randomness (IV generation, fresh UUIDs,
fresh key material) is modelled by passing the generated values as
explicit parameters.
-/

namespace CryptoService

/-- Byte strings: each element is one byte, `< 256` where it matters. -/
abbrev Bytes := List Nat

/-- Error codes, from `include/crypto/common/result.h` (subset used by the
embedded operations). -/
inductive ErrorCode where
  | OK
  | UNKNOWN_ERROR
  | INVALID_INPUT
  | INTERNAL_ERROR
  | CRYPTO_ERROR
  | INVALID_KEY_SIZE
  | INVALID_IV_SIZE
  | INVALID_TAG_SIZE
  | INTEGRITY_ERROR
  | PADDING_ERROR
  | KEY_GENERATION_FAILED
  | INVALID_KEY_TYPE
  | SIZE_LIMIT_EXCEEDED
  | SIGNATURE_INVALID
  | ENCRYPTION_FAILED
  | DECRYPTION_FAILED
  | KEY_NOT_FOUND
  | KEY_DEPRECATED
  | KEY_ROTATION_FAILED
  | KEY_EXPIRED
  | KEY_INVALID_STATE
  deriving DecidableEq, Repr

/-- `crypto::Error`: code plus message (`result.h`); the correlation id is
not touched by the embedded operations and is omitted. -/
structure Error where
  code : ErrorCode
  message : String
  deriving DecidableEq, Repr

/-- `crypto::Result<T>` (`std::expected<T, Error>`). -/
abbrev CResult (α : Type) := Except Error α

/-- `limits::MAX_PLAINTEXT_SIZE` (64 MiB). -/
def MAX_PLAINTEXT_SIZE : Nat := 64 * 1024 * 1024

/-- `limits::MAX_CIPHERTEXT_SIZE` (64 MiB + 1024). -/
def MAX_CIPHERTEXT_SIZE : Nat := 64 * 1024 * 1024 + 1024

/-- `limits::MAX_AAD_SIZE` (64 KiB). -/
def MAX_AAD_SIZE : Nat := 64 * 1024

/-- `crypto::validatePlaintextSize` (`input_validation.h`). -/
def validatePlaintextSize (size : Nat) : CResult Unit :=
  if size > MAX_PLAINTEXT_SIZE then
    .error ⟨.SIZE_LIMIT_EXCEEDED, "Input exceeds maximum allowed size"⟩
  else .ok ()

/-- `crypto::validateCiphertextSize` (`input_validation.h`). -/
def validateCiphertextSize (size : Nat) : CResult Unit :=
  if size > MAX_CIPHERTEXT_SIZE then
    .error ⟨.SIZE_LIMIT_EXCEEDED, "Ciphertext exceeds maximum allowed size"⟩
  else .ok ()

/-- `crypto::validateAADSize` (`input_validation.h`). -/
def validateAADSize (size : Nat) : CResult Unit :=
  if size > MAX_AAD_SIZE then
    .error ⟨.SIZE_LIMIT_EXCEEDED, "AAD exceeds maximum allowed size"⟩
  else .ok ()

/-- `crypto::validateAESKeySize` (`input_validation.h`). -/
def validateAESKeySize (size : Nat) : CResult Unit :=
  if size ≠ 16 ∧ size ≠ 32 then
    .error ⟨.INVALID_KEY_SIZE, "AES key must be 128 or 256 bits"⟩
  else .ok ()

/-- `crypto::validateGCMIVSize` (`input_validation.h`). -/
def validateGCMIVSize (size : Nat) : CResult Unit :=
  if size ≠ 12 then
    .error ⟨.INVALID_IV_SIZE, "GCM IV must be 96 bits"⟩
  else .ok ()

/-- `crypto::validateGCMTagSize` (`input_validation.h`). -/
def validateGCMTagSize (size : Nat) : CResult Unit :=
  if size ≠ 16 then
    .error ⟨.INVALID_TAG_SIZE, "GCM tag must be 128 bits"⟩
  else .ok ()

/-- `crypto::makeSafeError` (`input_validation.h`): generic messages that
leak no details. -/
def makeSafeError (code : ErrorCode) : Error :=
  match code with
  | .ENCRYPTION_FAILED => ⟨code, "Encryption operation failed"⟩
  | .DECRYPTION_FAILED => ⟨code, "Decryption operation failed"⟩
  | .SIGNATURE_INVALID => ⟨code, "Signature verification failed"⟩
  | .INTEGRITY_ERROR => ⟨code, "Data integrity verification failed"⟩
  | _ => ⟨code, "Operation failed"⟩

/-- Little-endian byte encoding of `x` on `n` bytes (truncates to
`2 ^ (8 * n)` exactly as a C cast to a narrower unsigned type does). -/
def natToBytesLE : Nat → Nat → Bytes
  | 0, _ => []
  | n + 1, x => (x % 256) :: natToBytesLE n (x / 256)

/-- `getGCMCipher` (`aes_engine.cpp` anonymous namespace): non-null
exactly for 16- and 32-byte keys. -/
def getGCMCipher (key_size : Nat) : Option Unit :=
  match key_size with
  | 16 => some ()
  | 32 => some ()
  | _ => none

/-- A block cipher abstraction standing for the OpenSSL AES primitive:
given key bytes and a 16-byte block, produce the encrypted block.  All
theorems below hold for every such function, hence for AES itself. -/
abbrev BlockCipher := Bytes → Bytes → Bytes

/-- Idealized model of the EVP AES-GCM keystream (external library code):
byte `i` of the keystream comes from encrypting counter block `2 + i/16`
(GCM encrypts payload starting at counter 2).  Keystream bytes are
reduced `% 256` because the primitive produces bytes. -/
def gcmKeystream (E : BlockCipher) (key iv : Bytes) (n : Nat) : Bytes :=
  (List.range n).map
    (fun i => (E key (iv ++ natToBytesLE 4 (2 + i / 16))).getD (i % 16) 0 % 256)

/-- Weighted byte sum underlying the modelled GCM tag: byte at offset `i`
is weighted by `2 ^ (8 * (i % 16))`.  Like GHASH with a nonzero hash key,
changing any single byte of the input changes the sum modulo `2 ^ 128`. -/
def ghashSum (i : Nat) : Bytes → Nat
  | [] => 0
  | b :: rest => b * 2 ^ (8 * (i % 16)) + ghashSum (i + 1) rest

/-- The byte string authenticated by the modelled GCM tag: key, IV,
length-prefixed AAD and length-prefixed ciphertext. -/
def gcmAuthData (key iv aad ciphertext : Bytes) : Bytes :=
  key ++ iv ++ natToBytesLE 8 aad.length ++ aad ++
    natToBytesLE 8 ciphertext.length ++ ciphertext

/-- Idealized model of the 16-byte EVP AES-GCM authentication tag. -/
def gcmTag (key iv aad ciphertext : Bytes) : Bytes :=
  natToBytesLE 16 (ghashSum 0 (gcmAuthData key iv aad ciphertext) % 2 ^ 128)

/-- `crypto::EncryptResult` (`aes_engine.h`). -/
structure EncryptResult where
  ciphertext : Bytes
  iv : Bytes
  tag : Bytes
  deriving DecidableEq, Repr

/-- `AESEngine::encryptGCMWithIV` (`aes_engine.cpp` lines 71–155):
validations in source order, then the (modelled) EVP GCM encryption. -/
def encryptGCMWithIV (E : BlockCipher) (plaintext key iv aad : Bytes) :
    CResult EncryptResult :=
  match validatePlaintextSize plaintext.length with
  | .error e => .error e
  | .ok _ =>
  match validateAADSize aad.length with
  | .error e => .error e
  | .ok _ =>
  match validateAESKeySize key.length with
  | .error e => .error e
  | .ok _ =>
  match validateGCMIVSize iv.length with
  | .error e => .error e
  | .ok _ =>
  match getGCMCipher key.length with
  | none => .error (makeSafeError .ENCRYPTION_FAILED)
  | some _ =>
    let ciphertext :=
      List.zipWith (fun p k => p ^^^ k) plaintext
        (gcmKeystream E key iv plaintext.length)
    .ok ⟨ciphertext, iv, gcmTag key iv aad ciphertext⟩

/-- `AESEngine::encryptGCM` (`aes_engine.cpp` lines 59–69): generates a
fresh 12-byte IV (modelled as the parameter `iv`, the RNG output) and
defers to `encryptGCMWithIV`. -/
def encryptGCM (E : BlockCipher) (iv plaintext key aad : Bytes) :
    CResult EncryptResult :=
  encryptGCMWithIV E plaintext key iv aad

/-- `AESEngine::decryptGCM` (`aes_engine.cpp` lines 157–241): validations
in source order, then decryption; a tag mismatch yields the safe
`INTEGRITY_ERROR` from `makeSafeError`. -/
def decryptGCM (E : BlockCipher) (ciphertext key iv tag aad : Bytes) :
    CResult Bytes :=
  match validateCiphertextSize ciphertext.length with
  | .error e => .error e
  | .ok _ =>
  match validateAADSize aad.length with
  | .error e => .error e
  | .ok _ =>
  match validateAESKeySize key.length with
  | .error e => .error e
  | .ok _ =>
  match validateGCMIVSize iv.length with
  | .error e => .error e
  | .ok _ =>
  match validateGCMTagSize tag.length with
  | .error e => .error e
  | .ok _ =>
  match getGCMCipher key.length with
  | none => .error (makeSafeError .DECRYPTION_FAILED)
  | some _ =>
    let plaintext :=
      List.zipWith (fun c k => c ^^^ k) ciphertext
        (gcmKeystream E key iv ciphertext.length)
    if gcmTag key iv aad ciphertext = tag then .ok plaintext
    else .error (makeSafeError .INTEGRITY_ERROR)

/-- `aes_cbc::BLOCK_SIZE` (`hash_utils.h`). -/
def CBC_BLOCK_SIZE : Nat := 16

/-- `AESEngine::addPKCS7Padding` (`aes_engine.cpp` lines 243–248). -/
def addPKCS7Padding (data : Bytes) : Bytes :=
  let padding_len := CBC_BLOCK_SIZE - data.length % CBC_BLOCK_SIZE
  data ++ List.replicate padding_len padding_len

/-- `AESEngine::removePKCS7Padding` (`aes_engine.cpp` lines 250–269). -/
def removePKCS7Padding (data : Bytes) : CResult Bytes :=
  if data.isEmpty then .error ⟨.PADDING_ERROR, "Empty data"⟩
  else
    let padding_len := data.getLastD 0
    if padding_len = 0 ∨ padding_len > CBC_BLOCK_SIZE ∨ padding_len > data.length then
      .error ⟨.PADDING_ERROR, "Invalid padding length"⟩
    else if (data.drop (data.length - padding_len)).all (fun b => b == padding_len) then
      .ok (data.take (data.length - padding_len))
    else .error ⟨.PADDING_ERROR, "Invalid padding bytes"⟩

/-- The split performed by the `std::getline(iss, part, SEP)` loop in
`KeyId::parse` (`key_types.cpp`): fields are separated by `':'`, a
trailing separator produces no extra empty field (the final `getline`
fails on the exhausted stream), and the empty string yields no fields. -/
def splitColonAux : List Char → List Char → List (List Char)
  | [], acc => [acc.reverse]
  | c :: rest, acc =>
    if c = ':' then
      if rest = [] then [acc.reverse]
      else acc.reverse :: splitColonAux rest []
    else splitColonAux rest (c :: acc)

/-- Splitting behaviour of the `getline` loop on a whole string. -/
def splitColon (s : List Char) : List (List Char) :=
  if s = [] then [] else splitColonAux s []

/-- `isspace` characters skipped by `std::stoul`. -/
def isSpaceChar (c : Char) : Bool :=
  c == ' ' || c == '\t' || c == '\n' || c == '\x0b' || c == '\x0c' || c == '\r'

/-- `ULONG_MAX` on the 64-bit targets this service builds for. -/
def ULONG_MAX : Nat := 2 ^ 64 - 1

/-- Model of `std::stoul(s)` (base 10) as used by `KeyId::parse`: skip
leading whitespace, accept one optional sign, require at least one
digit, ignore trailing characters; values above `ULONG_MAX` throw
`std::out_of_range` (here: `none`), a minus sign negates modulo
`2 ^ 64` as `strtoul` does. -/
def stoulModel (s : List Char) : Option Nat :=
  let s1 := s.dropWhile (fun c => isSpaceChar c)
  let signAndRest : Bool × List Char :=
    match s1 with
    | '-' :: rest => (true, rest)
    | '+' :: rest => (false, rest)
    | _ => (false, s1)
  let ds : List Char := signAndRest.2.takeWhile (fun c => c.isDigit)
  if ds = [] then none
  else
    let n := ds.foldl (fun acc c => acc * 10 + (c.toNat - 48)) 0
    if n > ULONG_MAX then none
    else if signAndRest.1 then some ((2 ^ 64 - n) % 2 ^ 64) else some n

/-- `crypto::KeyId` (`key_types.h`).  The C++ field `namespace_prefix` is
called `ns` here; `version` is a `uint32_t`, kept `< 2 ^ 32`. -/
structure KeyId where
  ns : String
  id : String
  version : Nat
  deriving DecidableEq, Repr

/-- `KeyId::toString` (`key_types.cpp`): `namespace:id:version`. -/
def KeyId.toString (k : KeyId) : String :=
  k.ns ++ ":" ++ k.id ++ ":" ++ Nat.repr k.version

/-- `KeyId::parse` (`key_types.cpp` lines 119–140): split on `':'`,
require exactly three fields, convert the third with `std::stoul` and
truncate to `uint32_t`. -/
def keyIdParse (s : String) : CResult KeyId :=
  match splitColon s.toList with
  | [p0, p1, p2] =>
    (match stoulModel p2 with
     | none => .error ⟨.INVALID_INPUT, "Invalid version number"⟩
     | some v => .ok ⟨String.mk p0, String.mk p1, v % 2 ^ 32⟩)
  | _ => .error ⟨.INVALID_INPUT, "Invalid KeyId format"⟩

/-- `KeyId::isValid` (`key_types.cpp` lines 160–162).  Note that
`KeyId::parse` never calls it. -/
def KeyId.isValid (k : KeyId) : Bool :=
  decide (k.ns ≠ "" ∧ k.id ≠ "" ∧ 0 < k.version)

/-- `crypto::KeyState` (`key_types.h`). -/
inductive KeyState where
  | PENDING_ACTIVATION
  | ACTIVE
  | DEPRECATED
  | PENDING_DESTRUCTION
  | DESTROYED
  deriving DecidableEq, Repr

/-- `crypto::KeyAlgorithm` (`key_types.h`). -/
inductive KeyAlgorithm where
  | AES_128_GCM
  | AES_256_GCM
  | AES_128_CBC
  | AES_256_CBC
  | RSA_2048
  | RSA_3072
  | RSA_4096
  | ECDSA_P256
  | ECDSA_P384
  | ECDSA_P521
  deriving DecidableEq, Repr

/-- `crypto::KeyType` (`key_types.h`). -/
inductive KeyType where
  | SYMMETRIC
  | ASYMMETRIC_PUBLIC
  | ASYMMETRIC_PRIVATE
  deriving DecidableEq, Repr

/-- `crypto::getKeySize` (`key_types.cpp`). -/
def getKeySize (algo : KeyAlgorithm) : Nat :=
  match algo with
  | .AES_128_GCM | .AES_128_CBC => 16
  | .AES_256_GCM | .AES_256_CBC => 32
  | .RSA_2048 => 256
  | .RSA_3072 => 384
  | .RSA_4096 => 512
  | .ECDSA_P256 => 32
  | .ECDSA_P384 => 48
  | .ECDSA_P521 => 66

/-- `crypto::KeyMetadata` (`key_types.h`).  Timestamps are modelled as
naturals (seconds); the C++ field `type` is called `ktype` here. -/
structure KeyMetadata where
  id : KeyId
  algorithm : KeyAlgorithm
  ktype : KeyType
  state : KeyState
  created_at : Nat
  expires_at : Nat
  rotated_at : Option Nat
  previous_version : Option KeyId
  owner_service : String
  allowed_operations : List String
  usage_count : Nat
  deriving DecidableEq, Repr

/-- `crypto::EncryptedKey` (`key_store.h`): key material sealed under the
master key with AES-256-GCM, plus its metadata. -/
structure EncryptedKey where
  encrypted_material : Bytes
  iv : Bytes
  tag : Bytes
  metadata : KeyMetadata
  deriving DecidableEq, Repr

/-- `InMemoryKeyStore` state: the `std::map<std::string, EncryptedKey>`
keyed by `KeyId::toString()`, as an association list with unique keys. -/
abbrev KeyStore := List (String × EncryptedKey)

/-- Map lookup (`keys_.find`). -/
def storeLookup (s : KeyStore) (key : String) : Option EncryptedKey :=
  match s with
  | [] => none
  | (k, v) :: rest => if k = key then some v else storeLookup rest key

/-- Map insert-or-assign (`keys_[id.toString()] = key`). -/
def storeAssign (s : KeyStore) (key : String) (v : EncryptedKey) : KeyStore :=
  match s with
  | [] => [(key, v)]
  | (k, w) :: rest =>
    if k = key then (key, v) :: rest else (k, w) :: storeAssign rest key v

/-- Map erase of the entry found for `key` (`keys_.erase(it)`). -/
def storeErase (s : KeyStore) (key : String) : KeyStore :=
  match s with
  | [] => []
  | (k, w) :: rest => if k = key then rest else (k, w) :: storeErase rest key

/-- `InMemoryKeyStore::retrieve` (`key_store.cpp`). -/
def storeRetrieve (s : KeyStore) (id : KeyId) : CResult EncryptedKey :=
  match storeLookup s id.toString with
  | none => .error ⟨.KEY_NOT_FOUND, "Key not found: " ++ id.toString⟩
  | some v => .ok v

/-- `InMemoryKeyStore::store` (`key_store.cpp`): always succeeds. -/
def storeStoreOp (s : KeyStore) (id : KeyId) (k : EncryptedKey) :
    CResult Unit × KeyStore :=
  (.ok (), storeAssign s id.toString k)

/-- `InMemoryKeyStore::remove` (`key_store.cpp`). -/
def storeRemoveOp (s : KeyStore) (id : KeyId) : CResult Unit × KeyStore :=
  match storeLookup s id.toString with
  | none => (.error ⟨.KEY_NOT_FOUND, "Key not found: " ++ id.toString⟩, s)
  | some _ => (.ok (), storeErase s id.toString)

/-- `InMemoryKeyStore::updateMetadata` (`key_store.cpp`). -/
def storeUpdateMetadata (s : KeyStore) (id : KeyId) (m : KeyMetadata) :
    CResult Unit × KeyStore :=
  match storeLookup s id.toString with
  | none => (.error ⟨.KEY_NOT_FOUND, "Key not found: " ++ id.toString⟩, s)
  | some k => (.ok (), storeAssign s id.toString { k with metadata := m })

/-- `KeyService::encryptKeyMaterial` (`key_service.cpp`): seal material
under the master key with AES-GCM (fresh IV passed explicitly, AAD
defaulted empty as in `aes_engine.h`). -/
def encryptKeyMaterial (E : BlockCipher) (master_key freshIv material : Bytes)
    (metadata : KeyMetadata) : CResult EncryptedKey :=
  match encryptGCM E freshIv material master_key [] with
  | .error e => .error e
  | .ok r => .ok ⟨r.ciphertext, r.iv, r.tag, metadata⟩

/-- `KeyService::decryptKeyMaterial` (`key_service.cpp`). -/
def decryptKeyMaterial (E : BlockCipher) (master_key : Bytes)
    (k : EncryptedKey) : CResult Bytes :=
  decryptGCM E k.encrypted_material master_key k.iv k.tag []

/-- `KeyService::getKeyMaterial` (`key_service.cpp` lines 278–303) with
no cache client configured (the constructor's default): the cache lookup
misses, the record is retrieved from the store and unwrapped.  Note the
source performs no key-state check here. -/
def getKeyMaterial (E : BlockCipher) (master_key : Bytes) (s : KeyStore)
    (id : KeyId) : CResult Bytes :=
  match storeRetrieve s id with
  | .error e => .error e
  | .ok k => decryptKeyMaterial E master_key k

/-- `KeyService::deprecateKey` (`key_service.cpp` lines 245–255).  The
flag `updOk` injects the only failure mode of the metadata update: the
underlying store write failing (e.g. `LocalKeyStore` file I/O), in which
case the store is unchanged and an internal error is returned. -/
def deprecateKey (s : KeyStore) (id : KeyId) (updOk : Bool) :
    CResult Unit × KeyStore :=
  match storeRetrieve s id with
  | .error e => (.error e, s)
  | .ok k =>
    if updOk then storeUpdateMetadata s id { k.metadata with state := .DEPRECATED }
    else (.error ⟨.INTERNAL_ERROR, "Failed to write key file"⟩, s)

/-- The new `KeyId` built by `rotateKey` (`key_service.cpp` lines
200–202): same namespace, freshly generated UUID, version incremented on
the `uint32_t`. -/
def rotatedKeyId (old : KeyId) (freshUuid : String) : KeyId :=
  ⟨old.ns, freshUuid, (old.version + 1) % 2 ^ 32⟩

/-- The new metadata built by `rotateKey` (`key_service.cpp` lines
204–217). -/
def rotatedMetadata (old : KeyId) (old_md : KeyMetadata) (freshUuid : String)
    (now : Nat) : KeyMetadata :=
  { id := rotatedKeyId old freshUuid
    algorithm := old_md.algorithm
    ktype := old_md.ktype
    state := .ACTIVE
    created_at := now
    expires_at := now + (old_md.expires_at - old_md.created_at)
    rotated_at := some now
    previous_version := some old
    owner_service := old_md.owner_service
    allowed_operations := old_md.allowed_operations
    usage_count := 0 }

/-- `KeyService::rotateKey` (`key_service.cpp` lines 167–243).  The RNG
and asymmetric-engine outputs are passed explicitly: `freshMaterial` is
the generated raw key material, `freshUuid` the generated UUID string,
`freshIv` the wrap IV, `now` the clock reading.  `updOk` injects failure
of the deprecation write as in `deprecateKey`.  `version` arithmetic is
`uint32_t`, hence the `% 2 ^ 32` in `rotatedKeyId`. -/
def rotateKey (E : BlockCipher) (master_key : Bytes) (s : KeyStore)
    (old : KeyId) (freshMaterial : Bytes) (freshUuid : String)
    (freshIv : Bytes) (now : Nat) (updOk : Bool) : CResult KeyId × KeyStore :=
  match storeRetrieve s old with
  | .error e => (.error e, s)
  | .ok oldKey =>
    if oldKey.metadata.state ≠ .ACTIVE then
      (.error ⟨.KEY_ROTATION_FAILED, "Only active keys can be rotated"⟩, s)
    else if getKeySize oldKey.metadata.algorithm = 0 then
      (.error ⟨.INVALID_INPUT, "Invalid algorithm"⟩, s)
    else
      match encryptKeyMaterial E master_key freshIv freshMaterial
        (rotatedMetadata old oldKey.metadata freshUuid now) with
      | .error e => (.error e, s)
      | .ok enc =>
        let s1 := (storeStoreOp s (rotatedKeyId old freshUuid) enc).2
        match deprecateKey s1 old updOk with
        | (.error e, s2) =>
          (.error e, (storeRemoveOp s2 (rotatedKeyId old freshUuid)).2)
        | (.ok _, s2) => (.ok (rotatedKeyId old freshUuid), s2)

/-- `crypto::TraceContext` (`tracing.h`): the fields touched by `parse`;
`sampled` defaults to `true` in the header. -/
structure TraceContext where
  trace_id : List Char
  span_id : List Char
  sampled : Bool
  deriving DecidableEq, Repr

/-- `std::string::substr(pos, n)`. -/
def substrL (s : List Char) (pos n : Nat) : List Char := (s.drop pos).take n

/-- `TraceContext::parse` (`tracing.cpp` lines 14–61). -/
def traceContextParse (tp : List Char) : Option TraceContext :=
  if tp.length < 55 then none
  else if ¬(tp.getD 0 ' ' = '0' ∧ tp.getD 1 ' ' = '0' ∧ tp.getD 2 ' ' = '-') then
    none
  else
    let tid := substrL tp 3 32
    if tid.length ≠ 32 then none
    else if tid.all (fun c => c == '0') then none
    else
      let sid := substrL tp 36 16
      if sid.length ≠ 16 then none
      else if sid.all (fun c => c == '0') then none
      else
        let sampled :=
          if 53 + 2 ≤ tp.length then (substrL tp 53 2).getD 1 ' ' == '1' else true
        some ⟨tid, sid, sampled⟩

/-- `FileEncryptionHeader` (`file_encryption_service.h`). -/
structure FileEncryptionHeader where
  magic : Nat
  version : Nat
  algorithm : Nat
  key_id : KeyId
  wrapped_dek : Bytes
  iv : Bytes
  tag : Bytes
  original_size : Nat
  chunk_size : Nat
  deriving Repr

/-- `FileEncryptionHeader::MAGIC`. -/
def ENVELOPE_MAGIC : Nat := 0x43525950

/-- `FileEncryptionHeader::VERSION`. -/
def ENVELOPE_VERSION : Nat := 1

/-- Bytes of a `std::string` (its `char`s). -/
def strBytes (s : String) : Bytes := s.toList.map Char.toNat

/-- `FileEncryptionHeader::serialize` (`file_encryption_service.cpp`
lines 9–51). -/
def headerSerialize (h : FileEncryptionHeader) : Bytes :=
  natToBytesLE 4 h.magic ++ natToBytesLE 2 h.version ++
    natToBytesLE 2 h.algorithm ++
    natToBytesLE 4 (strBytes h.key_id.toString).length ++
    strBytes h.key_id.toString ++
    natToBytesLE 4 h.wrapped_dek.length ++ h.wrapped_dek ++
    natToBytesLE 4 h.iv.length ++ h.iv ++
    natToBytesLE 4 h.tag.length ++ h.tag ++
    natToBytesLE 8 h.original_size ++ natToBytesLE 4 h.chunk_size

/-- Byte stream written by `FileEncryptionService::encryptStream`
(`file_encryption_service.cpp` lines 249–317), as a function of the
effectful sub-results: the wrapped DEK and the AES-GCM encryption result
`r` of the payload.  The source first writes the 4-byte header size,
then the serialized header, then the ciphertext. -/
def encryptStreamBytes (kek_id : KeyId) (wrapped_dek : Bytes)
    (r : EncryptResult) (original_size chunk_size : Nat) : Bytes :=
  let header : FileEncryptionHeader :=
    ⟨ENVELOPE_MAGIC, ENVELOPE_VERSION, 1, kek_id, wrapped_dek, r.iv, r.tag,
      original_size, chunk_size⟩
  let header_data := headerSerialize header
  natToBytesLE 4 header_data.length ++ header_data ++ r.ciphertext

/-- The envelope layout exactly as claim C4 and §6 of the spec state it:
magic from the very first byte, then version, algorithm tag,
length-prefixed KeyId, wrapped DEK, IV and tag, original size, chunk
size, ciphertext.  Used to compare the spec's layout with the bytes the
code actually writes. -/
def claimedEnvelopeLayout (kek_id : KeyId) (wrapped_dek iv tag ciphertext : Bytes)
    (original_size chunk_size : Nat) : Bytes :=
  natToBytesLE 4 0x43525950 ++ natToBytesLE 2 1 ++ natToBytesLE 2 1 ++
    natToBytesLE 4 (strBytes kek_id.toString).length ++
    strBytes kek_id.toString ++
    natToBytesLE 4 wrapped_dek.length ++ wrapped_dek ++
    natToBytesLE 4 iv.length ++ iv ++
    natToBytesLE 4 tag.length ++ tag ++
    natToBytesLE 8 original_size ++ natToBytesLE 4 chunk_size ++ ciphertext

/-! ### Helper lemmas about the byte encoding and the modelled GCM tag -/

lemma natToBytesLE_length (n x : Nat) : (natToBytesLE n x).length = n := by
  induction n generalizing x with
  | zero => rfl
  | succ n ih => simp [natToBytesLE, ih]

lemma natToBytesLE_lt (n x : Nat) : ∀ b ∈ natToBytesLE n x, b < 256 := by
  induction n generalizing x with
  | zero => simp [natToBytesLE]
  | succ n ih =>
    intro b hb
    simp only [natToBytesLE, List.mem_cons] at hb
    rcases hb with h | h
    · exact h ▸ Nat.mod_lt _ (by norm_num)
    · exact ih _ _ h

lemma natToBytesLE_inj (n : Nat) :
    ∀ x y, x < 2 ^ (8 * n) → y < 2 ^ (8 * n) →
      natToBytesLE n x = natToBytesLE n y → x = y := by
  induction n with
  | zero =>
    intro x y hx hy _
    simp only [Nat.mul_zero, pow_zero, Nat.lt_one_iff] at hx hy
    omega
  | succ n ih =>
    intro x y hx hy h
    simp only [natToBytesLE, List.cons.injEq] at h
    obtain ⟨h1, h2⟩ := h
    have hpow : 2 ^ (8 * (n + 1)) = 256 * 2 ^ (8 * n) := by
      rw [Nat.mul_succ, pow_add]; norm_num; ring
    have hx' : x / 256 < 2 ^ (8 * n) :=
      Nat.div_lt_of_lt_mul (hpow ▸ hx)
    have hy' : y / 256 < 2 ^ (8 * n) :=
      Nat.div_lt_of_lt_mul (hpow ▸ hy)
    have := ih _ _ hx' hy' h2
    omega

lemma ghashSum_append (xs : Bytes) :
    ∀ (i : Nat) (ys : Bytes),
      ghashSum i (xs ++ ys) = ghashSum i xs + ghashSum (i + xs.length) ys := by
  induction xs with
  | nil => intro i ys; simp [ghashSum]
  | cons b rest ih =>
    intro i ys
    simp only [List.cons_append, ghashSum, List.length_cons, List.append_eq]
    rw [ih (i + 1)]
    have h : i + 1 + rest.length = i + (rest.length + 1) := by omega
    rw [h, Nat.add_assoc]

lemma ghashSum_cons (i b : Nat) (B : Bytes) :
    ghashSum i (b :: B) = b * 2 ^ (8 * (i % 16)) + ghashSum (i + 1) B := rfl

/-- Changing a single byte of the authenticated data changes the tag sum
modulo `2 ^ 128`: the changed byte's weighted contribution is a nonzero
quantity smaller than the modulus. -/
lemma ghash_mod_ne (A B : Bytes) (b b' : Nat) (hb : b < 256) (hb' : b' < 256)
    (hne : b ≠ b') :
    ghashSum 0 (A ++ b :: B) % 2 ^ 128 ≠ ghashSum 0 (A ++ b' :: B) % 2 ^ 128 := by
  intro h
  rw [ghashSum_append, ghashSum_append, ghashSum_cons, ghashSum_cons] at h
  have hmod : Nat.ModEq (2 ^ 128)
      (ghashSum 0 A + (b * 2 ^ (8 * ((0 + A.length) % 16)) +
        ghashSum (0 + A.length + 1) B))
      (ghashSum 0 A + (b' * 2 ^ (8 * ((0 + A.length) % 16)) +
        ghashSum (0 + A.length + 1) B)) := h
  have h1 := Nat.ModEq.add_left_cancel' _ hmod
  have h2 := Nat.ModEq.add_right_cancel' _ h1
  have hwle : 2 ^ (8 * ((0 + A.length) % 16)) ≤ 2 ^ 120 := by
    apply Nat.pow_le_pow_right (by norm_num)
    have : (0 + A.length) % 16 < 16 := Nat.mod_lt _ (by norm_num)
    omega
  have hblt : b * 2 ^ (8 * ((0 + A.length) % 16)) < 2 ^ 128 := by
    calc b * 2 ^ (8 * ((0 + A.length) % 16)) ≤ 255 * 2 ^ 120 :=
          Nat.mul_le_mul (by omega) hwle
      _ < 2 ^ 128 := by norm_num
  have hblt' : b' * 2 ^ (8 * ((0 + A.length) % 16)) < 2 ^ 128 := by
    calc b' * 2 ^ (8 * ((0 + A.length) % 16)) ≤ 255 * 2 ^ 120 :=
          Nat.mul_le_mul (by omega) hwle
      _ < 2 ^ 128 := by norm_num
  have heq : b * 2 ^ (8 * ((0 + A.length) % 16)) =
      b' * 2 ^ (8 * ((0 + A.length) % 16)) := by
    have := h2
    unfold Nat.ModEq at this
    rwa [Nat.mod_eq_of_lt hblt, Nat.mod_eq_of_lt hblt'] at this
  exact hne (Nat.eq_of_mul_eq_mul_right (Nat.pos_pow_of_pos _ (by norm_num)) heq)

/-- Tag bytes differ whenever the authenticated data differs in one byte. -/
lemma gcmTagBytes_ne (A B : Bytes) (b b' : Nat) (hb : b < 256) (hb' : b' < 256)
    (hne : b ≠ b') :
    natToBytesLE 16 (ghashSum 0 (A ++ b :: B) % 2 ^ 128) ≠
      natToBytesLE 16 (ghashSum 0 (A ++ b' :: B) % 2 ^ 128) := by
  intro h
  apply ghash_mod_ne A B b b' hb hb' hne
  have h128 : (8 : Nat) * 16 = 128 := by norm_num
  exact natToBytesLE_inj 16 _ _
    (by rw [h128]; exact Nat.mod_lt _ (by norm_num))
    (by rw [h128]; exact Nat.mod_lt _ (by norm_num)) h

lemma gcmKeystream_length (E : BlockCipher) (key iv : Bytes) (n : Nat) :
    (gcmKeystream E key iv n).length = n := by
  simp [gcmKeystream]

lemma gcmKeystream_lt (E : BlockCipher) (key iv : Bytes) (n : Nat) :
    ∀ b ∈ gcmKeystream E key iv n, b < 256 := by
  intro b hb
  simp only [gcmKeystream, List.mem_map] at hb
  obtain ⟨i, _, rfl⟩ := hb
  exact Nat.mod_lt _ (by norm_num)

lemma zipWith_xor_cancel (xs : Bytes) :
    ∀ ks : Bytes, xs.length ≤ ks.length →
      List.zipWith (fun c k => c ^^^ k)
        (List.zipWith (fun p k => p ^^^ k) xs ks) ks = xs := by
  induction xs with
  | nil => intro ks _; simp
  | cons x xt ih =>
    intro ks hlen
    cases ks with
    | nil => simp at hlen
    | cons k kt =>
      simp only [List.length_cons] at hlen
      simp only [List.zipWith_cons_cons, Nat.xor_cancel_right]
      rw [ih kt (by omega)]

/-- Shape of a successful `encryptGCMWithIV`: all validators pass and the
result carries the keystream-XORed ciphertext, the IV and the tag. -/
lemma encryptGCMWithIV_ok (E : BlockCipher) (plaintext key iv aad : Bytes)
    (hpt : plaintext.length ≤ MAX_PLAINTEXT_SIZE)
    (haad : aad.length ≤ MAX_AAD_SIZE)
    (hkey : key.length = 16 ∨ key.length = 32)
    (hiv : iv.length = 12) :
    encryptGCMWithIV E plaintext key iv aad =
      .ok ⟨List.zipWith (fun p k => p ^^^ k) plaintext
            (gcmKeystream E key iv plaintext.length), iv,
          gcmTag key iv aad
            (List.zipWith (fun p k => p ^^^ k) plaintext
              (gcmKeystream E key iv plaintext.length))⟩ := by
  rcases hkey with hk | hk <;>
    simp only [encryptGCMWithIV, validatePlaintextSize, validateAADSize,
      validateAESKeySize, validateGCMIVSize, hk, hiv, getGCMCipher,
      if_neg (Nat.not_lt.mpr hpt), if_neg (Nat.not_lt.mpr haad)] <;>
    norm_num

/-- Shape of `decryptGCM` when all validators pass and the tag matches. -/
lemma decryptGCM_of_tag_eq (E : BlockCipher) (ciphertext key iv tag aad : Bytes)
    (hct : ciphertext.length ≤ MAX_CIPHERTEXT_SIZE)
    (haad : aad.length ≤ MAX_AAD_SIZE)
    (hkey : key.length = 16 ∨ key.length = 32)
    (hiv : iv.length = 12)
    (htag : tag.length = 16)
    (htageq : gcmTag key iv aad ciphertext = tag) :
    decryptGCM E ciphertext key iv tag aad =
      .ok (List.zipWith (fun c k => c ^^^ k) ciphertext
            (gcmKeystream E key iv ciphertext.length)) := by
  rcases hkey with hk | hk <;>
    simp only [decryptGCM, validateCiphertextSize, validateAADSize,
      validateAESKeySize, validateGCMIVSize, validateGCMTagSize, hk, hiv, htag,
      getGCMCipher, if_neg (Nat.not_lt.mpr hct), if_neg (Nat.not_lt.mpr haad),
      htageq] <;>
    norm_num

/-- Shape of `decryptGCM` when all validators pass but the tag mismatches:
the single opaque integrity error. -/
lemma decryptGCM_of_tag_ne (E : BlockCipher) (ciphertext key iv tag aad : Bytes)
    (hct : ciphertext.length ≤ MAX_CIPHERTEXT_SIZE)
    (haad : aad.length ≤ MAX_AAD_SIZE)
    (hkey : key.length = 16 ∨ key.length = 32)
    (hiv : iv.length = 12)
    (htag : tag.length = 16)
    (htagne : gcmTag key iv aad ciphertext ≠ tag) :
    decryptGCM E ciphertext key iv tag aad =
      .error ⟨.INTEGRITY_ERROR, "Data integrity verification failed"⟩ := by
  rcases hkey with hk | hk <;>
    simp only [decryptGCM, validateCiphertextSize, validateAADSize,
      validateAESKeySize, validateGCMIVSize, validateGCMTagSize, hk, hiv, htag,
      getGCMCipher, if_neg (Nat.not_lt.mpr hct), if_neg (Nat.not_lt.mpr haad),
      if_neg htagne] <;>
    norm_num [makeSafeError]

lemma gcmCiphertext_length (E : BlockCipher) (plaintext key iv : Bytes) :
    (List.zipWith (fun p k => p ^^^ k) plaintext
      (gcmKeystream E key iv plaintext.length)).length = plaintext.length := by
  simp [List.length_zipWith, gcmKeystream_length]

/-- C1. AES-GCM round-trip: for every plaintext of at most 64 MiB, every
16- or 32-byte AES key and every AAD of at most 64 KiB, `decryptGCM`
applied to the ciphertext, IV and tag produced by `encryptGCM` (whose
fresh 12-byte random IV is the parameter `iv`) succeeds and returns
exactly the plaintext. -/
theorem aesgcm_roundtrip (E : BlockCipher) (plaintext key iv aad : Bytes)
    (hpt : plaintext.length ≤ MAX_PLAINTEXT_SIZE)
    (hkey : key.length = 16 ∨ key.length = 32)
    (haad : aad.length ≤ MAX_AAD_SIZE)
    (hiv : iv.length = 12) :
    ∃ r : EncryptResult,
      encryptGCM E iv plaintext key aad = .ok r ∧
      decryptGCM E r.ciphertext key r.iv r.tag aad = .ok plaintext := by
  refine ⟨_, encryptGCMWithIV_ok E plaintext key iv aad hpt haad hkey hiv, ?_⟩
  have hctlen := gcmCiphertext_length E plaintext key iv
  rw [decryptGCM_of_tag_eq E _ key iv _ aad
      (by rw [hctlen]; calc plaintext.length ≤ MAX_PLAINTEXT_SIZE := hpt
            _ ≤ MAX_CIPHERTEXT_SIZE := by norm_num [MAX_PLAINTEXT_SIZE, MAX_CIPHERTEXT_SIZE])
      haad hkey hiv
      (by simp [gcmTag, natToBytesLE_length])
      rfl]
  rw [hctlen]
  exact congrArg Except.ok
    (zipWith_xor_cancel plaintext _ (by rw [gcmKeystream_length]))

/-- Witness for C1 at a concrete input. -/
theorem aesgcm_roundtrip_witness :
    ∃ r : EncryptResult,
      encryptGCM (fun _ b => b) (List.replicate 12 0) [104, 105] (List.replicate 16 1) [7] = .ok r ∧
      decryptGCM (fun _ b => b) r.ciphertext (List.replicate 16 1) r.iv r.tag [7] = .ok [104, 105] :=
  aesgcm_roundtrip (fun _ b => b) [104, 105] (List.replicate 16 1)
    (List.replicate 12 0) [7]
    (by simp [MAX_PLAINTEXT_SIZE]) (by simp) (by simp [MAX_AAD_SIZE]) (by simp)

/-- C7. Oversize rejection: a plaintext of 67,108,865 bytes (one past
64 MiB) is rejected by `encryptGCM` with `SIZE_LIMIT_EXCEEDED` for every
key, IV and AAD.  The equation's right-hand side does not mention the
block cipher `E`, so no cipher operation contributes to the result: the
size validator short-circuits ahead of any cryptographic work and no
partial output exists. -/
theorem oversize_rejection (E : BlockCipher) (iv plaintext key aad : Bytes)
    (hpt : plaintext.length = 67108865) :
    encryptGCM E iv plaintext key aad =
      .error ⟨.SIZE_LIMIT_EXCEEDED, "Input exceeds maximum allowed size"⟩ := by
  simp [encryptGCM, encryptGCMWithIV, validatePlaintextSize, hpt,
    MAX_PLAINTEXT_SIZE]

/-- Witness for C7 at a concrete oversize input. -/
theorem oversize_rejection_witness :
    encryptGCM (fun _ b => b) [] (List.replicate 67108865 0) [] [] =
      .error ⟨.SIZE_LIMIT_EXCEEDED, "Input exceeds maximum allowed size"⟩ :=
  oversize_rejection (fun _ b => b) [] (List.replicate 67108865 0) [] []
    (by rw [List.length_replicate])

lemma getLastD_replicate (n : Nat) (x d : Nat) (h : n ≠ 0) :
    (List.replicate n x).getLastD d = x := by
  induction n generalizing d with
  | zero => omega
  | succ n ih =>
    rw [List.replicate_succ, List.getLastD_cons]
    cases n with
    | zero => rfl
    | succ m => exact ih x (by omega)

lemma getLastD_append_right (l1 l2 : Bytes) (h : l2 ≠ []) :
    ∀ d, (l1 ++ l2).getLastD d = l2.getLastD d := by
  induction l1 with
  | nil => intro d; rfl
  | cons a t ih =>
    intro d
    rw [List.cons_append, List.getLastD_cons, ih a]
    cases l2 with
    | nil => exact absurd rfl h
    | cons b u => rw [List.getLastD_cons, List.getLastD_cons]

lemma all_beq_replicate (n x : Nat) :
    (List.replicate n x).all (fun b => b == x) = true := by
  simp [List.all_eq_true]

/-- C9. PKCS#7 padding round-trip: `addPKCS7Padding d` has the smallest
length that is a multiple of 16 and strictly greater than `d.length`,
the appended bytes all equal the padding length (which is between 1 and
16), and `removePKCS7Padding` undoes the padding exactly. -/
theorem pkcs7_roundtrip (d : Bytes) :
    (addPKCS7Padding d).length % 16 = 0 ∧
    d.length < (addPKCS7Padding d).length ∧
    (∀ m, d.length < m → m % 16 = 0 → (addPKCS7Padding d).length ≤ m) ∧
    (addPKCS7Padding d).drop d.length =
      List.replicate (16 - d.length % 16) (16 - d.length % 16) ∧
    1 ≤ 16 - d.length % 16 ∧ 16 - d.length % 16 ≤ 16 ∧
    removePKCS7Padding (addPKCS7Padding d) = .ok d := by
  have hr : d.length % 16 < 16 := Nat.mod_lt _ (by norm_num)
  have hlen : (addPKCS7Padding d).length = d.length + (16 - d.length % 16) := by
    simp [addPKCS7Padding, CBC_BLOCK_SIZE]
  refine ⟨?_, ?_, ?_, ?_, ?_, ?_, ?_⟩
  · rw [hlen]; omega
  · rw [hlen]; omega
  · intro m hm hm16; rw [hlen]; omega
  · simp only [addPKCS7Padding, CBC_BLOCK_SIZE]
    exact List.drop_left d _
  · omega
  · omega
  · simp only [removePKCS7Padding, addPKCS7Padding, CBC_BLOCK_SIZE]
    have hne : List.replicate (16 - d.length % 16) (16 - d.length % 16) ≠
        ([] : Bytes) := by
      simp only [ne_eq, List.replicate_eq_nil_iff]
      omega
    rw [if_neg (by
      simp only [List.isEmpty_iff, List.append_eq_nil]
      rintro ⟨-, h2⟩
      exact hne h2)]
    rw [getLastD_append_right _ _ hne, getLastD_replicate _ _ _ (by omega)]
    rw [if_neg (by
      simp only [List.length_append, List.length_replicate]
      push_neg
      refine ⟨by omega, by omega, by omega⟩)]
    have hdl : d.length + (16 - d.length % 16) - (16 - d.length % 16) =
        d.length := by omega
    rw [List.length_append, List.length_replicate, hdl, List.drop_left,
      if_pos (all_beq_replicate _ _), List.take_left]

/-- Witness for C9 at a concrete input (minimality instantiated at 16). -/
theorem pkcs7_roundtrip_witness :
    removePKCS7Padding (addPKCS7Padding [5, 6, 7]) = .ok [5, 6, 7] ∧
    (addPKCS7Padding [5, 6, 7]).length % 16 = 0 ∧
    ([5, 6, 7] : Bytes).length < (addPKCS7Padding [5, 6, 7]).length ∧
    (addPKCS7Padding [5, 6, 7]).length ≤ 16 :=
  ⟨(pkcs7_roundtrip [5, 6, 7]).2.2.2.2.2.2,
   (pkcs7_roundtrip [5, 6, 7]).1,
   (pkcs7_roundtrip [5, 6, 7]).2.1,
   (pkcs7_roundtrip [5, 6, 7]).2.2.1 16 (by decide) (by decide)⟩

/-! ### Single-bit tampering (claim C2) -/

/-- Flip bit `k` of byte `j` of a byte string. -/
def flipBit (bs : Bytes) (j k : Nat) : Bytes :=
  bs.set j (bs.getD j 0 ^^^ 2 ^ k)

lemma flipBit_length (bs : Bytes) (j k : Nat) :
    (flipBit bs j k).length = bs.length := List.length_set bs j _

lemma flipByte_lt (b k : Nat) (hb : b < 256) (hk : k < 8) : b ^^^ 2 ^ k < 256 := by
  have h256 : (256 : Nat) = 2 ^ 8 := by norm_num
  have h2 : 2 ^ k < 256 := by
    rw [h256]
    exact Nat.pow_lt_pow_right (by norm_num) hk
  rw [h256] at hb h2 ⊢
  exact Nat.xor_lt_two_pow hb h2

lemma flipByte_ne (b k : Nat) : b ^^^ 2 ^ k ≠ b := by
  intro h
  have h2 : b ^^^ (b ^^^ 2 ^ k) = b ^^^ b := by rw [h]
  rw [Nat.xor_cancel_left, Nat.xor_self] at h2
  exact absurd h2 (Nat.pos_iff_ne_zero.mp (Nat.pos_pow_of_pos k (by norm_num)))

lemma list_split_at (l : Bytes) (j : Nat) (hj : j < l.length) :
    l = l.take j ++ l.getD j 0 :: l.drop (j + 1) := by
  conv_lhs => rw [← List.take_append_drop j l]
  rw [List.drop_eq_getElem_cons hj, List.getD_eq_getElem _ _ hj]

lemma split_mid (P Q l : Bytes) (j : Nat) (hj : j < l.length) :
    P ++ l ++ Q = (P ++ l.take j) ++ l.getD j 0 :: (l.drop (j + 1) ++ Q) := by
  conv_lhs => rw [list_split_at l j hj]
  simp [List.append_assoc]

lemma split_mid_set (P Q l : Bytes) (j v : Nat) (hj : j < l.length) :
    P ++ l.set j v ++ Q = (P ++ l.take j) ++ v :: (l.drop (j + 1) ++ Q) := by
  rw [List.set_eq_take_cons_drop _ hj]
  simp [List.append_assoc]

lemma flipBit_ne_self (l : Bytes) (j k : Nat) (hj : j < l.length) :
    flipBit l j k ≠ l := by
  intro h
  have h1 : (flipBit l j k).getD j 0 = l.getD j 0 := by rw [h]
  rw [flipBit, List.getD_eq_getElem _ _ (by rw [List.length_set]; exact hj),
    List.getElem_set_self] at h1
  exact flipByte_ne _ k h1

lemma getD_lt_of_forall (l : Bytes) (j : Nat) (hj : j < l.length)
    (hb : ∀ b ∈ l, b < 256) : l.getD j 0 < 256 := by
  rw [List.getD_eq_getElem _ _ hj]
  exact hb _ (List.getElem_mem hj)

lemma zipWith_xor_lt (xs : Bytes) :
    ∀ ks : Bytes, (∀ b ∈ xs, b < 256) → (∀ b ∈ ks, b < 256) →
      ∀ b ∈ List.zipWith (fun p k => p ^^^ k) xs ks, b < 256 := by
  induction xs with
  | nil => intro ks _ _ b hb; simp at hb
  | cons x xt ih =>
    intro ks hx hk b hb
    cases ks with
    | nil => simp at hb
    | cons c kt =>
      simp only [List.zipWith_cons_cons, List.mem_cons] at hb
      rcases hb with rfl | hb
      · have h256 : (256 : Nat) = 2 ^ 8 := by norm_num
        rw [h256]
        exact Nat.xor_lt_two_pow (h256 ▸ hx x (by simp)) (h256 ▸ hk c (by simp))
      · exact ih kt (fun b hb => hx b (by simp [hb])) (fun b hb => hk b (by simp [hb])) b hb

/-- The tag mismatch produced by one flipped byte, generic in the
decomposition of the authenticated data. -/
lemma gcmTag_ne_of_decomp (key iv iv' aad aad' ct ct' A B : Bytes) (b k : Nat)
    (hb : b < 256) (hk : k < 8)
    (h1 : gcmAuthData key iv aad ct = A ++ b :: B)
    (h2 : gcmAuthData key iv' aad' ct' = A ++ (b ^^^ 2 ^ k) :: B) :
    gcmTag key iv' aad' ct' ≠ gcmTag key iv aad ct := by
  unfold gcmTag
  rw [h1, h2]
  exact gcmTagBytes_ne A B (b ^^^ 2 ^ k) b (flipByte_lt b k hb hk) hb
    (flipByte_ne b k)

/-- C2. GCM tamper opacity: for every successful AES-GCM encryption,
flipping any single bit of the ciphertext, IV, tag or AAD makes
`decryptGCM` fail with code `INTEGRITY_ERROR` and the exact message
"Data integrity verification failed" — one opaque error regardless of
which component was tampered with. -/
theorem gcm_tamper_opaque (E : BlockCipher) (plaintext key iv aad : Bytes)
    (r : EncryptResult)
    (hptb : ∀ b ∈ plaintext, b < 256)
    (hivb : ∀ b ∈ iv, b < 256)
    (haadb : ∀ b ∈ aad, b < 256)
    (hpt : plaintext.length ≤ MAX_PLAINTEXT_SIZE)
    (hkey : key.length = 16 ∨ key.length = 32)
    (haad : aad.length ≤ MAX_AAD_SIZE)
    (hiv : iv.length = 12)
    (hok : encryptGCM E iv plaintext key aad = .ok r) :
    (∀ j k, j < r.ciphertext.length → k < 8 →
      decryptGCM E (flipBit r.ciphertext j k) key r.iv r.tag aad =
        .error ⟨.INTEGRITY_ERROR, "Data integrity verification failed"⟩) ∧
    (∀ j k, j < r.iv.length → k < 8 →
      decryptGCM E r.ciphertext key (flipBit r.iv j k) r.tag aad =
        .error ⟨.INTEGRITY_ERROR, "Data integrity verification failed"⟩) ∧
    (∀ j k, j < r.tag.length → k < 8 →
      decryptGCM E r.ciphertext key r.iv (flipBit r.tag j k) aad =
        .error ⟨.INTEGRITY_ERROR, "Data integrity verification failed"⟩) ∧
    (∀ j k, j < aad.length → k < 8 →
      decryptGCM E r.ciphertext key r.iv r.tag (flipBit aad j k) =
        .error ⟨.INTEGRITY_ERROR, "Data integrity verification failed"⟩) := by
  rw [encryptGCM, encryptGCMWithIV_ok E plaintext key iv aad hpt haad hkey hiv]
    at hok
  have hr := Except.ok.inj hok
  subst hr
  dsimp only
  set ct := List.zipWith (fun p k => p ^^^ k) plaintext
    (gcmKeystream E key iv plaintext.length) with hctdef
  have hctlen : ct.length = plaintext.length := gcmCiphertext_length E plaintext key iv
  have hctb : ∀ b ∈ ct, b < 256 :=
    zipWith_xor_lt plaintext _ hptb (gcmKeystream_lt E key iv _)
  have hctmax : ct.length ≤ MAX_CIPHERTEXT_SIZE := by
    rw [hctlen]
    calc plaintext.length ≤ MAX_PLAINTEXT_SIZE := hpt
      _ ≤ MAX_CIPHERTEXT_SIZE := by
          norm_num [MAX_PLAINTEXT_SIZE, MAX_CIPHERTEXT_SIZE]
  have htaglen : (gcmTag key iv aad ct).length = 16 := by
    simp [gcmTag, natToBytesLE_length]
  refine ⟨?_, ?_, ?_, ?_⟩ <;> intro j k hj hk
  · -- ciphertext flip
    apply decryptGCM_of_tag_ne E _ key iv _ aad
      (by rw [flipBit_length]; exact hctmax) haad hkey hiv htaglen
    have hb : ct.getD j 0 < 256 := getD_lt_of_forall ct j hj hctb
    apply gcmTag_ne_of_decomp key iv iv aad aad ct (flipBit ct j k)
      (key ++ iv ++ natToBytesLE 8 aad.length ++ aad ++
        natToBytesLE 8 ct.length ++ ct.take j)
      (ct.drop (j + 1)) (ct.getD j 0) k hb hk
    · simpa [gcmAuthData, List.append_assoc] using
        split_mid (key ++ iv ++ natToBytesLE 8 aad.length ++ aad ++
          natToBytesLE 8 ct.length) [] ct j hj
    · simpa [gcmAuthData, List.append_assoc, flipBit_length, flipBit] using
        split_mid_set (key ++ iv ++ natToBytesLE 8 aad.length ++ aad ++
          natToBytesLE 8 ct.length) [] ct j (ct.getD j 0 ^^^ 2 ^ k) hj
  · -- iv flip
    apply decryptGCM_of_tag_ne E ct key _ _ aad hctmax haad hkey
      (by rw [flipBit_length]; exact hiv) htaglen
    have hb : iv.getD j 0 < 256 := getD_lt_of_forall iv j hj hivb
    apply gcmTag_ne_of_decomp key iv (flipBit iv j k) aad aad ct ct
      (key ++ iv.take j)
      (iv.drop (j + 1) ++ natToBytesLE 8 aad.length ++ aad ++
        natToBytesLE 8 ct.length ++ ct)
      (iv.getD j 0) k hb hk
    · simpa [gcmAuthData, List.append_assoc] using
        split_mid key (natToBytesLE 8 aad.length ++ aad ++
          natToBytesLE 8 ct.length ++ ct) iv j hj
    · simpa [gcmAuthData, List.append_assoc, flipBit] using
        split_mid_set key (natToBytesLE 8 aad.length ++ aad ++
          natToBytesLE 8 ct.length ++ ct) iv j (iv.getD j 0 ^^^ 2 ^ k) hj
  · -- tag flip
    apply decryptGCM_of_tag_ne E ct key iv _ aad hctmax haad hkey hiv
      (by rw [flipBit_length]; exact htaglen)
    exact (flipBit_ne_self _ j k hj).symm
  · -- aad flip
    apply decryptGCM_of_tag_ne E ct key iv _ _ hctmax
      (by rw [flipBit_length]; exact haad) hkey hiv htaglen
    have hb : aad.getD j 0 < 256 := getD_lt_of_forall aad j hj haadb
    apply gcmTag_ne_of_decomp key iv iv aad (flipBit aad j k) ct ct
      (key ++ iv ++ natToBytesLE 8 aad.length ++ aad.take j)
      (aad.drop (j + 1) ++ natToBytesLE 8 ct.length ++ ct)
      (aad.getD j 0) k hb hk
    · simpa [gcmAuthData, List.append_assoc] using
        split_mid (key ++ iv ++ natToBytesLE 8 aad.length)
          (natToBytesLE 8 ct.length ++ ct) aad j hj
    · simpa [gcmAuthData, List.append_assoc, flipBit_length, flipBit] using
        split_mid_set (key ++ iv ++ natToBytesLE 8 aad.length)
          (natToBytesLE 8 ct.length ++ ct) aad j (aad.getD j 0 ^^^ 2 ^ k) hj

/-- Witness for C2: a concrete encryption whose ciphertext, IV, tag and
AAD are each flipped in their lowest bit of byte 0. -/
theorem gcm_tamper_opaque_witness :
    decryptGCM (fun _ _ => []) [0] (List.replicate 16 0) (List.replicate 12 0)
      [0, 0, 0, 0, 2, 1, 0, 0, 0, 0, 0, 0, 1, 1, 0, 0] [2] =
      .error ⟨.INTEGRITY_ERROR, "Data integrity verification failed"⟩ ∧
    decryptGCM (fun _ _ => []) [1] (List.replicate 16 0)
      (1 :: List.replicate 11 0)
      [0, 0, 0, 0, 2, 1, 0, 0, 0, 0, 0, 0, 1, 1, 0, 0] [2] =
      .error ⟨.INTEGRITY_ERROR, "Data integrity verification failed"⟩ ∧
    decryptGCM (fun _ _ => []) [1] (List.replicate 16 0) (List.replicate 12 0)
      [1, 0, 0, 0, 2, 1, 0, 0, 0, 0, 0, 0, 1, 1, 0, 0] [2] =
      .error ⟨.INTEGRITY_ERROR, "Data integrity verification failed"⟩ ∧
    decryptGCM (fun _ _ => []) [1] (List.replicate 16 0) (List.replicate 12 0)
      [0, 0, 0, 0, 2, 1, 0, 0, 0, 0, 0, 0, 1, 1, 0, 0] [3] =
      .error ⟨.INTEGRITY_ERROR, "Data integrity verification failed"⟩ := by
  have h := gcm_tamper_opaque (fun _ _ => []) [1] (List.replicate 16 0)
    (List.replicate 12 0) [2]
    ⟨[1], List.replicate 12 0, [0, 0, 0, 0, 2, 1, 0, 0, 0, 0, 0, 0, 1, 1, 0, 0]⟩
    (by decide) (by decide) (by decide) (by decide) (by decide) (by decide)
    (by decide) rfl
  exact ⟨h.1 0 0 (by decide) (by decide), h.2.1 0 0 (by decide) (by decide),
    h.2.2.1 0 0 (by decide) (by decide), h.2.2.2 0 0 (by decide) (by decide)⟩

/-! ### Traceparent parsing (claim C10) -/

lemma traceContextParse_eq (tp : List Char) (h : 55 ≤ tp.length) :
    traceContextParse tp =
      if tp.getD 0 ' ' = '0' ∧ tp.getD 1 ' ' = '0' ∧ tp.getD 2 ' ' = '-' then
        if (substrL tp 3 32).all (fun c => c == '0') then none
        else if (substrL tp 36 16).all (fun c => c == '0') then none
        else some ⟨substrL tp 3 32, substrL tp 36 16,
          (substrL tp 53 2).getD 1 ' ' == '1'⟩
      else none := by
  unfold traceContextParse
  rw [if_neg (by omega)]
  have htid : (substrL tp 3 32).length = 32 := by
    simp only [substrL, List.length_take, List.length_drop]
    omega
  have hsid : (substrL tp 36 16).length = 16 := by
    simp only [substrL, List.length_take, List.length_drop]
    omega
  by_cases hc : tp.getD 0 ' ' = '0' ∧ tp.getD 1 ' ' = '0' ∧ tp.getD 2 ' ' = '-'
  · rw [if_neg (not_not_intro hc), if_pos hc]
    by_cases hA : (substrL tp 3 32).all (fun c => c == '0') <;>
      by_cases hB : (substrL tp 36 16).all (fun c => c == '0') <;>
      simp [htid, hsid, hA, hB, show 53 + 2 ≤ tp.length from by omega]
  · rw [if_pos hc, if_neg hc]

lemma substr_getD_54 (tp : List Char) (h : 55 ≤ tp.length) :
    (substrL tp 53 2).getD 1 ' ' = tp.getD 54 ' ' := by
  have hlen : (substrL tp 53 2).length = 2 := by
    simp only [substrL, List.length_take, List.length_drop]
    omega
  rw [List.getD_eq_getElem _ _ (by omega : 1 < (substrL tp 53 2).length),
    List.getD_eq_getElem _ _ (by omega : 54 < tp.length)]
  simp [substrL]

lemma substrL_append (tp s : List Char) (pos n : Nat) (h : pos + n ≤ tp.length) :
    substrL (tp ++ s) pos n = substrL tp pos n := by
  unfold substrL
  rw [List.drop_append_of_le_length (by omega),
    List.take_append_of_le_length (by rw [List.length_drop]; omega)]

/-- C10. `TraceContext::parse` accepts exactly the strings of length at
least 55 starting with "00-" whose 32-character trace-id field
(positions 3–34) and 16-character span-id field (positions 36–51) are
not entirely '0'; it checks neither hexness nor the separators at
positions 35 and 52, ignores everything beyond position 54, and sets
`sampled` true iff the character at position 54 is '1'. -/
theorem traceparent_parse_characterization (tp : List Char) :
    ((traceContextParse tp).isSome ↔
      (55 ≤ tp.length ∧ tp.getD 0 ' ' = '0' ∧ tp.getD 1 ' ' = '0' ∧
        tp.getD 2 ' ' = '-' ∧
        ¬((tp.drop 3).take 32).all (fun c => c == '0') ∧
        ¬((tp.drop 36).take 16).all (fun c => c == '0'))) ∧
    (∀ ctx, traceContextParse tp = some ctx →
      ctx.trace_id = (tp.drop 3).take 32 ∧
      ctx.span_id = (tp.drop 36).take 16 ∧
      (ctx.sampled = true ↔ tp.getD 54 ' ' = '1')) ∧
    (∀ s, 55 ≤ tp.length →
      traceContextParse (tp ++ s) = traceContextParse tp) := by
  refine ⟨?_, ?_, ?_⟩
  · rcases Nat.lt_or_ge tp.length 55 with hlt | hge
    · simp [traceContextParse, hlt, show ¬55 ≤ tp.length from by omega]
    · rw [traceContextParse_eq tp hge]
      by_cases hc : tp.getD 0 ' ' = '0' ∧ tp.getD 1 ' ' = '0' ∧
          tp.getD 2 ' ' = '-'
      · rw [if_pos hc]
        by_cases hA : (substrL tp 3 32).all (fun c => c == '0')
        · rw [if_pos hA]
          simp only [Option.isSome_none, Bool.false_eq_true, false_iff]
          rintro ⟨-, -, -, -, hA', -⟩
          exact hA' (by simpa [substrL] using hA)
        · rw [if_neg hA]
          by_cases hB : (substrL tp 36 16).all (fun c => c == '0')
          · rw [if_pos hB]
            simp only [Option.isSome_none, Bool.false_eq_true, false_iff]
            rintro ⟨-, -, -, -, -, hB'⟩
            exact hB' (by simpa [substrL] using hB)
          · rw [if_neg hB]
            simp only [Option.isSome_some, true_iff]
            exact ⟨hge, hc.1, hc.2.1, hc.2.2,
              by simpa [substrL] using hA, by simpa [substrL] using hB⟩
      · simp only [if_neg hc, Option.isSome_none, Bool.false_eq_true,
          false_iff]
        rintro ⟨-, h1, h2, h3, -, -⟩
        exact hc ⟨h1, h2, h3⟩
  · intro ctx hctx
    rcases Nat.lt_or_ge tp.length 55 with hlt | hge
    · simp [traceContextParse, hlt] at hctx
    · rw [traceContextParse_eq tp hge] at hctx
      by_cases hc : tp.getD 0 ' ' = '0' ∧ tp.getD 1 ' ' = '0' ∧
          tp.getD 2 ' ' = '-'
      · rw [if_pos hc] at hctx
        by_cases hA : (substrL tp 3 32).all (fun c => c == '0')
        · rw [if_pos hA] at hctx; exact absurd hctx (by simp)
        · rw [if_neg hA] at hctx
          by_cases hB : (substrL tp 36 16).all (fun c => c == '0')
          · rw [if_pos hB] at hctx; exact absurd hctx (by simp)
          · rw [if_neg hB] at hctx
            have := Option.some.inj hctx
            subst this
            refine ⟨rfl, rfl, ?_⟩
            show ((substrL tp 53 2).getD 1 ' ' == '1') = true ↔ _
            rw [beq_iff_eq, substr_getD_54 tp hge]
      · rw [if_neg hc] at hctx; exact absurd hctx (by simp)
  · intro s hge
    have hge' : 55 ≤ (tp ++ s).length := by
      rw [List.length_append]; omega
    rw [traceContextParse_eq _ hge', traceContextParse_eq tp hge,
      List.getD_append _ _ _ _ (by omega), List.getD_append _ _ _ _ (by omega),
      List.getD_append _ _ _ _ (by omega),
      substrL_append tp s 3 32 (by omega), substrL_append tp s 36 16 (by omega),
      substrL_append tp s 53 2 (by omega)]

/-- Witness for C10 on the spec's S5 traceparent, with trailing junk
ignored. -/
theorem traceparent_parse_witness :
    (traceContextParse
      ("00-0af7651916cd43dd8448eb211c80319c-b7ad6b7169203331-01".toList)).isSome
      = true ∧
    traceContextParse
      ("00-0af7651916cd43dd8448eb211c80319c-b7ad6b7169203331-01".toList ++
        "-extrastuff".toList) =
      traceContextParse
        ("00-0af7651916cd43dd8448eb211c80319c-b7ad6b7169203331-01".toList) := by
  have h := traceparent_parse_characterization
    ("00-0af7651916cd43dd8448eb211c80319c-b7ad6b7169203331-01".toList)
  exact ⟨h.1.mpr (by decide), h.2.2 _ (by decide)⟩

/-! ### KeyId parsing (claim C5) -/

/-- Counterexample to C5: `KeyId::parse` accepts `"::0"` — empty
namespace, empty (certainly non-canonical) uuid and version 0 — because
it only counts colon-separated fields and runs `std::stoul` on the
third; `KeyId::isValid` would reject the result, but `parse` never
calls it. -/
theorem keyid_parse_rejects_cex :
    keyIdParse "::0" = .ok ⟨"", "", 0⟩ ∧
    KeyId.isValid ⟨"", "", 0⟩ = false := ⟨rfl, rfl⟩

/-- C5 (amended). `KeyId::parse` succeeds exactly when the `getline`
split over `':'` yields three fields and `std::stoul` accepts the third
(an optional-sign integer prefix in `unsigned long` range, trailing
characters ignored); the namespace and uuid fields are taken verbatim
with no validation, and the version is `stoul`'s value truncated to
`uint32_t`. -/
theorem keyid_parse_amended (s : String) :
    ((∃ k, keyIdParse s = .ok k) ↔
      ∃ p0 p1 p2 v, splitColon s.toList = [p0, p1, p2] ∧
        stoulModel p2 = some v) ∧
    (∀ k, keyIdParse s = .ok k →
      ∃ p0 p1 p2 v, splitColon s.toList = [p0, p1, p2] ∧
        stoulModel p2 = some v ∧
        k.ns = String.mk p0 ∧ k.id = String.mk p1 ∧ k.version = v % 2 ^ 32) := by
  constructor
  · constructor
    · rintro ⟨k, hk⟩
      rcases hs : splitColon s.toList with
        - | ⟨p0, - | ⟨p1, - | ⟨p2, - | ⟨p3, rest⟩⟩⟩⟩
      · simp only [keyIdParse, hs] at hk; exact Except.noConfusion hk
      · simp only [keyIdParse, hs] at hk; exact Except.noConfusion hk
      · simp only [keyIdParse, hs] at hk; exact Except.noConfusion hk
      · simp only [keyIdParse, hs] at hk
        rcases hv : stoulModel p2 with - | v
        · rw [hv] at hk; exact Except.noConfusion hk
        · exact ⟨p0, p1, p2, v, rfl, hv⟩
      · simp only [keyIdParse, hs] at hk; exact Except.noConfusion hk
    · rintro ⟨p0, p1, p2, v, hsplit, hv⟩
      exact ⟨⟨String.mk p0, String.mk p1, v % 2 ^ 32⟩,
        by simp only [keyIdParse, hsplit, hv]⟩
  · intro k hk
    rcases hs : splitColon s.toList with
      - | ⟨p0, - | ⟨p1, - | ⟨p2, - | ⟨p3, rest⟩⟩⟩⟩
    · simp only [keyIdParse, hs] at hk; exact Except.noConfusion hk
    · simp only [keyIdParse, hs] at hk; exact Except.noConfusion hk
    · simp only [keyIdParse, hs] at hk; exact Except.noConfusion hk
    · simp only [keyIdParse, hs] at hk
      rcases hv : stoulModel p2 with - | v
      · rw [hv] at hk; exact Except.noConfusion hk
      · rw [hv] at hk
        have hkk := Except.ok.inj hk
        exact ⟨p0, p1, p2, v, rfl, hv, by rw [← hkk], by rw [← hkk],
          by rw [← hkk]⟩
    · simp only [keyIdParse, hs] at hk; exact Except.noConfusion hk

/-- Witness for C5's amended characterization on a well-formed id. -/
theorem keyid_parse_amended_witness :
    ∃ k, keyIdParse "auth:550e8400-e29b-41d4-a716-446655440000:2" = .ok k :=
  (keyid_parse_amended "auth:550e8400-e29b-41d4-a716-446655440000:2").1.mpr
    ⟨"auth".toList, "550e8400-e29b-41d4-a716-446655440000".toList, "2".toList,
      2, by decide, by decide⟩

/-! ### File envelope layout (claim C4) -/

/-- Counterexample to C4: the first four bytes of an `encryptStream`
output are the little-endian header length (here 44), not the magic
`0x43525950`; the magic only starts at byte offset 4. -/
theorem file_envelope_layout_cex :
    (encryptStreamBytes ⟨"a", "b", 1⟩ [1] ⟨[9], [2], [3]⟩ 1 1024).take 4 =
      [44, 0, 0, 0] ∧
    (encryptStreamBytes ⟨"a", "b", 1⟩ [1] ⟨[9], [2], [3]⟩ 1 1024).take 4 ≠
      natToBytesLE 4 0x43525950 := by
  constructor <;> decide

/-- C4 (amended).  An `encryptStream` file is a u32 LE header-length
prefix followed by exactly the layout the claim describes — u32 LE magic
`0x43525950`, u16 LE version 1, u16 LE algorithm tag, length-prefixed
KeyId, wrapped DEK, IV and tag, u64 LE original size, u32 LE chunk size,
then the ciphertext.  The claimed layout therefore starts at byte
offset 4, not at the first byte of the file. -/
theorem file_envelope_layout_amended (kek_id : KeyId) (wrapped_dek : Bytes)
    (r : EncryptResult) (original_size chunk_size : Nat) :
    encryptStreamBytes kek_id wrapped_dek r original_size chunk_size =
      natToBytesLE 4 (headerSerialize ⟨ENVELOPE_MAGIC, ENVELOPE_VERSION, 1,
          kek_id, wrapped_dek, r.iv, r.tag, original_size, chunk_size⟩).length ++
        claimedEnvelopeLayout kek_id wrapped_dek r.iv r.tag r.ciphertext
          original_size chunk_size ∧
    (encryptStreamBytes kek_id wrapped_dek r original_size chunk_size).drop 4 =
      claimedEnvelopeLayout kek_id wrapped_dek r.iv r.tag r.ciphertext
        original_size chunk_size := by
  have hser : headerSerialize ⟨ENVELOPE_MAGIC, ENVELOPE_VERSION, 1, kek_id,
      wrapped_dek, r.iv, r.tag, original_size, chunk_size⟩ ++ r.ciphertext =
      claimedEnvelopeLayout kek_id wrapped_dek r.iv r.tag r.ciphertext
        original_size chunk_size := by
    simp [headerSerialize, claimedEnvelopeLayout, ENVELOPE_MAGIC,
      ENVELOPE_VERSION, List.append_assoc]
  constructor
  · rw [encryptStreamBytes, ← hser, List.append_assoc]
  · rw [encryptStreamBytes, ← hser, List.append_assoc]
    rw [show (4 : Nat) =
      (natToBytesLE 4 (headerSerialize ⟨ENVELOPE_MAGIC, ENVELOPE_VERSION, 1,
        kek_id, wrapped_dek, r.iv, r.tag, original_size,
        chunk_size⟩).length).length from (natToBytesLE_length _ _).symm]
    exact List.drop_left _ _

/-! ### Key store and key service lemmas (claims C3, C6, C8) -/

lemma storeLookup_assign_self (s : KeyStore) (key : String) (v : EncryptedKey) :
    storeLookup (storeAssign s key v) key = some v := by
  induction s with
  | nil => simp [storeAssign, storeLookup]
  | cons e rest ih =>
    obtain ⟨k, w⟩ := e
    by_cases h : k = key
    · simp [storeAssign, storeLookup, h]
    · simp [storeAssign, storeLookup, h, ih]

lemma storeLookup_assign_ne (s : KeyStore) (key key' : String)
    (v : EncryptedKey) (h : key' ≠ key) :
    storeLookup (storeAssign s key v) key' = storeLookup s key' := by
  have h' : key ≠ key' := Ne.symm h
  induction s with
  | nil => simp [storeAssign, storeLookup, h']
  | cons e rest ih =>
    obtain ⟨k, w⟩ := e
    by_cases hk : k = key
    · subst hk
      simp [storeAssign, storeLookup, h']
    · by_cases hk' : k = key'
      · simp [storeAssign, storeLookup, hk, hk', h]
      · simp [storeAssign, storeLookup, hk, hk', ih]

lemma storeAssign_not_present (s : KeyStore) (key : String) (v : EncryptedKey)
    (h : storeLookup s key = none) :
    storeAssign s key v = s ++ [(key, v)] := by
  induction s with
  | nil => simp [storeAssign]
  | cons e rest ih =>
    obtain ⟨k, w⟩ := e
    simp only [storeLookup] at h
    by_cases hk : k = key
    · simp [hk] at h
    · simp only [storeAssign, if_neg hk, List.cons_append, List.cons.injEq,
        true_and]
      exact ih (by simpa [hk] using h)

lemma storeErase_append_fresh (s : KeyStore) (key : String) (v : EncryptedKey)
    (h : storeLookup s key = none) :
    storeErase (s ++ [(key, v)]) key = s := by
  induction s with
  | nil => simp [storeErase]
  | cons e rest ih =>
    obtain ⟨k, w⟩ := e
    simp only [storeLookup] at h
    by_cases hk : k = key
    · simp [hk] at h
    · simp only [List.cons_append, storeErase, if_neg hk, List.cons.injEq,
        true_and]
      exact ih (by simpa [hk] using h)

lemma getKeySize_pos (a : KeyAlgorithm) : getKeySize a ≠ 0 := by
  cases a <;> simp [getKeySize]

/-- Successful wrap of key material under the master key. -/
lemma encryptKeyMaterial_ok (E : BlockCipher) (mk freshIv material : Bytes)
    (md : KeyMetadata)
    (hm : material.length ≤ MAX_PLAINTEXT_SIZE)
    (hk : mk.length = 16 ∨ mk.length = 32)
    (hiv : freshIv.length = 12) :
    encryptKeyMaterial E mk freshIv material md =
      .ok ⟨List.zipWith (fun p k => p ^^^ k) material
            (gcmKeystream E mk freshIv material.length), freshIv,
          gcmTag mk freshIv []
            (List.zipWith (fun p k => p ^^^ k) material
              (gcmKeystream E mk freshIv material.length)), md⟩ := by
  rw [encryptKeyMaterial, encryptGCM,
    encryptGCMWithIV_ok E material mk freshIv [] hm (by simp [MAX_AAD_SIZE])
      hk hiv]

lemma encryptKeyMaterial_metadata (E : BlockCipher) (mk freshIv material : Bytes)
    (md : KeyMetadata) (enc : EncryptedKey)
    (h : encryptKeyMaterial E mk freshIv material md = .ok enc) :
    enc.metadata = md := by
  rw [encryptKeyMaterial] at h
  rcases hgcm : encryptGCM E freshIv material mk [] with e | r
  · rw [hgcm] at h; exact Except.noConfusion h
  · rw [hgcm] at h
    have := Except.ok.inj h
    rw [← this]

/-- The run of `rotateKey` on an active, present key with a fresh new id:
deterministic store evolution, split on whether the deprecation write
succeeds. -/
lemma rotateKey_run (E : BlockCipher) (mk : Bytes) (s : KeyStore) (old : KeyId)
    (oldKey enc : EncryptedKey) (freshMaterial : Bytes) (freshUuid : String)
    (freshIv : Bytes) (now : Nat) (updOk : Bool)
    (hold : storeLookup s old.toString = some oldKey)
    (hstate : oldKey.metadata.state = .ACTIVE)
    (henc : encryptKeyMaterial E mk freshIv freshMaterial
      (rotatedMetadata old oldKey.metadata freshUuid now) = .ok enc)
    (hfresh : storeLookup s (rotatedKeyId old freshUuid).toString = none) :
    rotateKey E mk s old freshMaterial freshUuid freshIv now updOk =
      if updOk then
        (.ok (rotatedKeyId old freshUuid),
          storeAssign (storeAssign s (rotatedKeyId old freshUuid).toString enc)
            old.toString
            { oldKey with metadata :=
              { oldKey.metadata with state := .DEPRECATED } })
      else
        (.error ⟨.INTERNAL_ERROR, "Failed to write key file"⟩, s) := by
  have hne : old.toString ≠ (rotatedKeyId old freshUuid).toString := by
    intro h
    rw [h, hfresh] at hold
    exact Option.noConfusion hold
  have hstate' : ¬oldKey.metadata.state ≠ KeyState.ACTIVE := by
    rw [hstate]; simp
  have hs1old : storeLookup
      (storeAssign s (rotatedKeyId old freshUuid).toString enc) old.toString =
      some oldKey := by
    rw [storeLookup_assign_ne _ _ _ _ hne, hold]
  cases updOk with
  | true =>
    rw [if_pos rfl]
    simp only [rotateKey, storeRetrieve, hold, if_neg hstate',
      if_neg (getKeySize_pos oldKey.metadata.algorithm), henc, storeStoreOp,
      deprecateKey, hs1old, storeUpdateMetadata]
    simp
  | false =>
    rw [if_neg (by simp)]
    have happ := storeAssign_not_present s _ enc hfresh
    have hlookApp : storeLookup
        (s ++ [((rotatedKeyId old freshUuid).toString, enc)])
        (rotatedKeyId old freshUuid).toString = some enc := by
      rw [← happ]; exact storeLookup_assign_self s _ enc
    have hs1old' : storeLookup
        (s ++ [((rotatedKeyId old freshUuid).toString, enc)]) old.toString =
        some oldKey := by
      rw [← happ]; exact hs1old
    simp only [rotateKey, storeRetrieve, hold, if_neg hstate',
      if_neg (getKeySize_pos oldKey.metadata.algorithm), henc, storeStoreOp,
      happ, deprecateKey, hs1old', storeRemoveOp, hlookApp]
    simp [storeErase_append_fresh s _ enc hfresh]
    rw [hlookApp]

/-- Counterexample to C3's "new version = old version + 1": `version` is
a `uint32_t`, so rotating a key whose version is 4294967295 produces
version 0, not 4294967296.  The concrete store holds one active key at
version 4294967295; rotation succeeds and returns version 0. -/
theorem rotate_version_wrap_cex :
    (rotateKey (fun _ _ => []) (List.replicate 32 0)
        [(KeyId.toString ⟨"ns", "u", 4294967295⟩,
          ⟨[9], List.replicate 12 0, List.replicate 16 0,
            ⟨⟨"ns", "u", 4294967295⟩, .AES_256_GCM, .SYMMETRIC, .ACTIVE, 0,
              100, none, none, "svc", ["encrypt"], 0⟩⟩)]
        ⟨"ns", "u", 4294967295⟩ [7] "u2" (List.replicate 12 0) 5 true).1 =
      .ok ⟨"ns", "u2", 0⟩ ∧
    (0 : Nat) ≠ 4294967295 + 1 := ⟨rfl, by decide⟩

/-- C3 (amended).  After a successful `rotateKey` of an active stored
key: the returned id shares the namespace, carries the fresh uuid and
version `(old.version + 1) % 2 ^ 32` (equal to `old.version + 1`
whenever that does not overflow `uint32_t`), the new stored record is
Active with `previous_version = old`, the old stored record is
Deprecated, and the new id differs from the old.  Rotation fails with
`KEY_ROTATION_FAILED` for every stored key whose state is not Active. -/
theorem rotate_postconditions_amended :
    (∀ (E : BlockCipher) (mk : Bytes) (s : KeyStore) (old : KeyId)
        (oldKey : EncryptedKey) (fm : Bytes) (fu : String) (fiv : Bytes)
        (now : Nat),
      storeLookup s old.toString = some oldKey →
      oldKey.metadata.state = .ACTIVE →
      (mk.length = 16 ∨ mk.length = 32) →
      fiv.length = 12 →
      fm.length ≤ MAX_PLAINTEXT_SIZE →
      old.version < 2 ^ 32 →
      storeLookup s (rotatedKeyId old fu).toString = none →
      (rotateKey E mk s old fm fu fiv now true).1 =
        .ok (rotatedKeyId old fu) ∧
      (∃ newKey,
        storeLookup (rotateKey E mk s old fm fu fiv now true).2
          (rotatedKeyId old fu).toString = some newKey ∧
        newKey.metadata.state = .ACTIVE ∧
        newKey.metadata.previous_version = some old) ∧
      (∃ oldKey',
        storeLookup (rotateKey E mk s old fm fu fiv now true).2
          old.toString = some oldKey' ∧
        oldKey'.metadata.state = .DEPRECATED) ∧
      (rotatedKeyId old fu).version = (old.version + 1) % 2 ^ 32 ∧
      rotatedKeyId old fu ≠ old) ∧
    (∀ (E : BlockCipher) (mk : Bytes) (s : KeyStore) (old : KeyId)
        (krec : EncryptedKey) (fm : Bytes) (fu : String) (fiv : Bytes)
        (now : Nat) (updOk : Bool),
      storeLookup s old.toString = some krec →
      krec.metadata.state ≠ .ACTIVE →
      rotateKey E mk s old fm fu fiv now updOk =
        (.error ⟨.KEY_ROTATION_FAILED, "Only active keys can be rotated"⟩,
          s)) := by
  constructor
  · intro E mk s old oldKey fm fu fiv now hold hstate hk hiv hm hv32 hfresh
    have henc := encryptKeyMaterial_ok E mk fiv fm
      (rotatedMetadata old oldKey.metadata fu now) hm hk hiv
    have hrun := rotateKey_run E mk s old oldKey _ fm fu fiv now true hold
      hstate henc hfresh
    rw [if_pos rfl] at hrun
    have hne : old.toString ≠ (rotatedKeyId old fu).toString := by
      intro h
      rw [h, hfresh] at hold
      exact Option.noConfusion hold
    rw [hrun]
    refine ⟨rfl, ?_, ?_, rfl, ?_⟩
    · rw [storeLookup_assign_ne _ _ _ _ (Ne.symm hne),
        storeLookup_assign_self]
      exact ⟨_, rfl, rfl, rfl⟩
    · rw [storeLookup_assign_self]
      exact ⟨_, rfl, rfl⟩
    · intro h
      have hv := congrArg KeyId.version h
      simp only [rotatedKeyId] at hv
      omega
  · intro E mk s old krec fm fu fiv now updOk hold hstate
    simp only [rotateKey, storeRetrieve, hold]
    rw [if_pos hstate]

/-- Witness for C3's amended rotation postconditions at a concrete
store. -/
theorem rotate_postconditions_amended_witness :
    (rotateKey (fun _ _ => []) (List.replicate 32 0)
        [(KeyId.toString ⟨"ns", "u", 1⟩,
          ⟨[9], List.replicate 12 0, List.replicate 16 0,
            ⟨⟨"ns", "u", 1⟩, .AES_256_GCM, .SYMMETRIC, .ACTIVE, 0, 100, none,
              none, "svc", ["encrypt"], 0⟩⟩)]
        ⟨"ns", "u", 1⟩ [7] "u2" (List.replicate 12 0) 5 true).1 =
      .ok (rotatedKeyId ⟨"ns", "u", 1⟩ "u2") ∧
    (rotateKey (fun _ _ => []) (List.replicate 32 0)
        [(KeyId.toString ⟨"ns", "u", 1⟩,
          ⟨[9], List.replicate 12 0, List.replicate 16 0,
            ⟨⟨"ns", "u", 1⟩, .AES_256_GCM, .SYMMETRIC, .DEPRECATED, 0, 100,
              none, none, "svc", ["encrypt"], 0⟩⟩)]
        ⟨"ns", "u", 1⟩ [7] "u2" (List.replicate 12 0) 5 true).1 =
      .error ⟨.KEY_ROTATION_FAILED, "Only active keys can be rotated"⟩ := by
  constructor
  · exact (rotate_postconditions_amended.1 (fun _ _ => [])
      (List.replicate 32 0)
      [(KeyId.toString ⟨"ns", "u", 1⟩,
        ⟨[9], List.replicate 12 0, List.replicate 16 0,
          ⟨⟨"ns", "u", 1⟩, .AES_256_GCM, .SYMMETRIC, .ACTIVE, 0, 100, none,
            none, "svc", ["encrypt"], 0⟩⟩)]
      ⟨"ns", "u", 1⟩
      ⟨[9], List.replicate 12 0, List.replicate 16 0,
        ⟨⟨"ns", "u", 1⟩, .AES_256_GCM, .SYMMETRIC, .ACTIVE, 0, 100, none,
          none, "svc", ["encrypt"], 0⟩⟩
      [7] "u2" (List.replicate 12 0) 5 rfl rfl (by simp) (by simp)
      (by decide) (by decide) rfl).1
  · exact congrArg Prod.fst (rotate_postconditions_amended.2 (fun _ _ => [])
      (List.replicate 32 0)
      [(KeyId.toString ⟨"ns", "u", 1⟩,
        ⟨[9], List.replicate 12 0, List.replicate 16 0,
          ⟨⟨"ns", "u", 1⟩, .AES_256_GCM, .SYMMETRIC, .DEPRECATED, 0, 100,
            none, none, "svc", ["encrypt"], 0⟩⟩)]
      ⟨"ns", "u", 1⟩
      ⟨[9], List.replicate 12 0, List.replicate 16 0,
        ⟨⟨"ns", "u", 1⟩, .AES_256_GCM, .SYMMETRIC, .DEPRECATED, 0, 100, none,
          none, "svc", ["encrypt"], 0⟩⟩
      [7] "u2" (List.replicate 12 0) 5 true rfl (by decide))

/-- C8. Rotation rollback atomicity: when the deprecation write on the
old key fails after the new record was stored (fault `updOk = false`),
`rotateKey` returns that error and removes the just-stored record, so
the final store equals the initial store exactly — same key set, old
metadata untouched. -/
theorem rotate_rollback (E : BlockCipher) (mk : Bytes) (s : KeyStore)
    (old : KeyId) (oldKey : EncryptedKey) (fm : Bytes) (fu : String)
    (fiv : Bytes) (now : Nat)
    (hold : storeLookup s old.toString = some oldKey)
    (hstate : oldKey.metadata.state = .ACTIVE)
    (hk : mk.length = 16 ∨ mk.length = 32)
    (hiv : fiv.length = 12)
    (hm : fm.length ≤ MAX_PLAINTEXT_SIZE)
    (hfresh : storeLookup s (rotatedKeyId old fu).toString = none) :
    rotateKey E mk s old fm fu fiv now false =
      (.error ⟨.INTERNAL_ERROR, "Failed to write key file"⟩, s) := by
  have henc := encryptKeyMaterial_ok E mk fiv fm
    (rotatedMetadata old oldKey.metadata fu now) hm hk hiv
  have hrun := rotateKey_run E mk s old oldKey _ fm fu fiv now false hold
    hstate henc hfresh
  rw [if_neg (by simp)] at hrun
  exact hrun

/-- Witness for C8 at a concrete store: the failed rotation returns the
store unchanged. -/
theorem rotate_rollback_witness :
    rotateKey (fun _ _ => []) (List.replicate 32 0)
        [(KeyId.toString ⟨"ns", "u", 1⟩,
          ⟨[9], List.replicate 12 0, List.replicate 16 0,
            ⟨⟨"ns", "u", 1⟩, .AES_256_GCM, .SYMMETRIC, .ACTIVE, 0, 100, none,
              none, "svc", ["encrypt"], 0⟩⟩)]
        ⟨"ns", "u", 1⟩ [7] "u2" (List.replicate 12 0) 5 false =
      (.error ⟨.INTERNAL_ERROR, "Failed to write key file"⟩,
        [(KeyId.toString ⟨"ns", "u", 1⟩,
          ⟨[9], List.replicate 12 0, List.replicate 16 0,
            ⟨⟨"ns", "u", 1⟩, .AES_256_GCM, .SYMMETRIC, .ACTIVE, 0, 100, none,
              none, "svc", ["encrypt"], 0⟩⟩)]) :=
  rotate_rollback (fun _ _ => []) (List.replicate 32 0) _ ⟨"ns", "u", 1⟩ _
    [7] "u2" (List.replicate 12 0) 5 rfl rfl (by simp) (by simp) (by decide)
    (by decide)

/-- Counterexample to C6: `KeyService::getKeyMaterial` performs no
key-state check, so a record whose stored metadata state is `DESTROYED`
still yields its decrypted key material as long as the record is in the
store. -/
theorem destroyed_key_material_cex :
    getKeyMaterial (fun _ _ => []) (List.replicate 32 0)
      [(KeyId.toString ⟨"ns", "u", 1⟩,
        ⟨[1, 2, 3], List.replicate 12 0,
          [0, 0, 0, 0, 3, 0, 0, 0, 0, 0, 0, 0, 1, 2, 3, 0],
          ⟨⟨"ns", "u", 1⟩, .AES_256_GCM, .SYMMETRIC, .DESTROYED, 0, 100,
            none, none, "svc", [], 0⟩⟩)]
      ⟨"ns", "u", 1⟩ = .ok [1, 2, 3] ∧
    KeyState.DESTROYED ≠ KeyState.ACTIVE := ⟨rfl, by decide⟩

/-- C6 (amended).  `getKeyMaterial` ignores the stored key state: for a
key whose record is still in the store it returns the unwrapped material
even when the state is Destroyed; a destroyed key fails to produce
material only once its record has been removed from the store (as
`deleteKey` does), in which case `KEY_NOT_FOUND` is returned. -/
theorem destroyed_key_material_amended :
    (∀ (E : BlockCipher) (mk material fiv : Bytes) (s : KeyStore)
        (id : KeyId) (md : KeyMetadata) (enc : EncryptedKey),
      md.state = .DESTROYED →
      (mk.length = 16 ∨ mk.length = 32) →
      fiv.length = 12 →
      material.length ≤ MAX_PLAINTEXT_SIZE →
      encryptKeyMaterial E mk fiv material md = .ok enc →
      storeLookup s id.toString = some enc →
      getKeyMaterial E mk s id = .ok material) ∧
    (∀ (E : BlockCipher) (mk : Bytes) (s : KeyStore) (id : KeyId),
      storeLookup s id.toString = none →
      getKeyMaterial E mk s id =
        .error ⟨.KEY_NOT_FOUND, "Key not found: " ++ id.toString⟩) := by
  constructor
  · intro E mk material fiv s id md enc hdes hk hiv hm henc hlook
    rw [encryptKeyMaterial_ok E mk fiv material md hm hk hiv] at henc
    have henc' := Except.ok.inj henc
    rw [getKeyMaterial, storeRetrieve, hlook, ← henc']
    simp only [decryptKeyMaterial]
    have hctlen := gcmCiphertext_length E material mk fiv
    rw [decryptGCM_of_tag_eq E _ mk fiv _ []
      (by rw [hctlen]
          calc material.length ≤ MAX_PLAINTEXT_SIZE := hm
            _ ≤ MAX_CIPHERTEXT_SIZE := by
                norm_num [MAX_PLAINTEXT_SIZE, MAX_CIPHERTEXT_SIZE])
      (by simp [MAX_AAD_SIZE]) hk hiv
      (by simp [gcmTag, natToBytesLE_length]) rfl]
    rw [hctlen]
    exact congrArg Except.ok
      (zipWith_xor_cancel material _ (by rw [gcmKeystream_length]))
  · intro E mk s id hlook
    rw [getKeyMaterial, storeRetrieve, hlook]

/-- Witness for C6's amended statement: material flows for a Destroyed
record still in the store, and `KEY_NOT_FOUND` once it is removed. -/
theorem destroyed_key_material_amended_witness :
    getKeyMaterial (fun _ _ => []) (List.replicate 32 0)
      [(KeyId.toString ⟨"ns", "u", 1⟩,
        ⟨[1, 2, 3], List.replicate 12 0,
          [0, 0, 0, 0, 3, 0, 0, 0, 0, 0, 0, 0, 1, 2, 3, 0],
          ⟨⟨"ns", "u", 1⟩, .AES_256_GCM, .SYMMETRIC, .DESTROYED, 0, 100,
            none, none, "svc", [], 0⟩⟩)]
      ⟨"ns", "u", 1⟩ = .ok [1, 2, 3] ∧
    getKeyMaterial (fun _ _ => []) (List.replicate 32 0) [] ⟨"ns", "u", 1⟩ =
      .error ⟨.KEY_NOT_FOUND,
        "Key not found: " ++ KeyId.toString ⟨"ns", "u", 1⟩⟩ := by
  constructor
  · exact destroyed_key_material_amended.1 (fun _ _ => [])
      (List.replicate 32 0) [1, 2, 3] (List.replicate 12 0)
      [(KeyId.toString ⟨"ns", "u", 1⟩,
        ⟨[1, 2, 3], List.replicate 12 0,
          [0, 0, 0, 0, 3, 0, 0, 0, 0, 0, 0, 0, 1, 2, 3, 0],
          ⟨⟨"ns", "u", 1⟩, .AES_256_GCM, .SYMMETRIC, .DESTROYED, 0, 100,
            none, none, "svc", [], 0⟩⟩)]
      ⟨"ns", "u", 1⟩
      ⟨⟨"ns", "u", 1⟩, .AES_256_GCM, .SYMMETRIC, .DESTROYED, 0, 100, none,
        none, "svc", [], 0⟩
      ⟨[1, 2, 3], List.replicate 12 0,
        [0, 0, 0, 0, 3, 0, 0, 0, 0, 0, 0, 0, 1, 2, 3, 0],
        ⟨⟨"ns", "u", 1⟩, .AES_256_GCM, .SYMMETRIC, .DESTROYED, 0, 100, none,
          none, "svc", [], 0⟩⟩
      rfl (by simp) (by simp) (by decide) rfl rfl
  · exact destroyed_key_material_amended.2 (fun _ _ => [])
      (List.replicate 32 0) [] ⟨"ns", "u", 1⟩ rfl

end CryptoService
